import Mathlib

/-!
Shallow embedding of the parts of deepwiki-rs that the claims are about:

* src/generator/preprocess/extractors/language_processors/csharp.rs
  (CSharpProcessor: extract_dependencies, extract_interfaces and helpers)
* src/integrations/knowledge_sync.rs (KnowledgeSyncer: should_sync,
  sync_local_docs, load_cached_knowledge / load_local_docs_cache)
* src/integrations/local_docs.rs (the data model of processed documents)

Rust string slices are modelled as `List Char`.  Byte-level operations
(`str::find` returning byte offsets, byte-range slicing `&s[i..]`) are
modelled explicitly via the UTF-8 width of each character, because the
SQL extractor mixes byte offsets of `line.to_uppercase()` with slices of
`line`; a slice whose start index is out of bounds or not a character
boundary panics in Rust and is modelled as `none`.
-/

/-- Convert a Lean string literal to the `List Char` representation used
for Rust `&str` values. -/
def strL (s : String) : List Char := s.toList

/-- Convert the `List Char` representation back to a `String` (used for
record fields that are owned `String`s in the Rust code). -/
def chStr (l : List Char) : String := String.mk l

/-- Whitespace test used to model Rust `char::is_whitespace` (the inputs
considered by the claims only contain ASCII whitespace). -/
def wsp (c : Char) : Bool := c.isWhitespace

/-- Model of the regex class `\w` (the inputs considered by the claims
only contain ASCII word characters). -/
def wrd (c : Char) : Bool := c.isAlphanum || c == '_'

/-- Left brace character (written via its code point). -/
def lbraceChar : Char := Char.ofNat 123

/-- Models Rust `str::trim_start` (for `str::trim`). -/
def trimStart (l : List Char) : List Char := l.dropWhile wsp

/-- Models Rust `str::trim_end` (for `str::trim`). -/
def trimEnd (l : List Char) : List Char := (l.reverse.dropWhile wsp).reverse

/-- Models Rust `str::trim`. -/
def trim (l : List Char) : List Char := trimEnd (trimStart l)

/-- Models Rust `str::starts_with` for string patterns. -/
def startsWith (pre l : List Char) : Bool := pre.isPrefixOf l

/-- Models Rust `str::ends_with` for string patterns. -/
def endsWith (suf l : List Char) : Bool := suf.isSuffixOf l

/-- Models Rust `str::contains` for string patterns. -/
def containsSub (needle : List Char) : List Char → Bool
  | [] => needle.isEmpty
  | c :: rest => needle.isPrefixOf (c :: rest) || containsSub needle rest

/-- Character index of the first occurrence of `needle`.  For the
manifest extractors the needle and everything before it is ASCII, so the
character index agrees with the byte index returned by `str::find`. -/
def findSubChar (needle : List Char) : List Char → Option Nat
  | [] => if needle.isEmpty then some 0 else none
  | c :: rest =>
    if needle.isPrefixOf (c :: rest) then some 0
    else (findSubChar needle rest).map (· + 1)

/-- Models the idiom `s.find(needle)` followed by
`&s[start + needle.len()..]`: the suffix of `s` after the first
occurrence of `needle` (`none` when `needle` does not occur). -/
def afterSub (needle hay : List Char) : Option (List Char) :=
  (findSubChar needle hay).map (fun i => hay.drop (i + needle.length))

/-- Models `s.find(q)` followed by `&s[..end]` for a character `q`: the
prefix of `s` before the first occurrence of `q` (`none` if absent). -/
def takeBefore (q : Char) : List Char → Option (List Char)
  | [] => none
  | c :: rest => if c = q then some [] else (takeBefore q rest).map (c :: ·)

/-- UTF-8 width in bytes of a character. -/
def utf8Len (c : Char) : Nat :=
  if c.toNat < 0x80 then 1
  else if c.toNat < 0x800 then 2
  else if c.toNat < 0x10000 then 3
  else 4

/-- Byte offset of the first occurrence of `needle`, as Rust `str::find`
returns it. -/
def findSubByte (needle : List Char) : List Char → Option Nat
  | [] => if needle.isEmpty then some 0 else none
  | c :: rest =>
    if needle.isPrefixOf (c :: rest) then some 0
    else (findSubByte needle rest).map (· + utf8Len c)

/-- Models the Rust slice `&s[i..]` with `i` a byte index: `none` when
`i` is past the end of the string or not a character boundary, which
panics in Rust. -/
def byteDrop : List Char → Nat → Option (List Char)
  | s, 0 => some s
  | [], _ + 1 => none
  | c :: rest, i + 1 =>
    if utf8Len c ≤ i + 1 then byteDrop rest (i + 1 - utf8Len c) else none

/-- Models Rust `str::split` on a single separator character (the result
is never empty). -/
def splitOnChar (sep : Char) : List Char → List (List Char)
  | [] => [[]]
  | c :: rest =>
    match splitOnChar sep rest with
    | [] => [[]]
    | t :: ts => if c = sep then [] :: t :: ts else (c :: t) :: ts

/-- Models Rust `str::split` on a set of separator characters given as a
predicate (for `split(['/', '\\'])` and similar). -/
def splitOnPred (sep : Char → Bool) : List Char → List (List Char)
  | [] => [[]]
  | c :: rest =>
    match splitOnPred sep rest with
    | [] => [[]]
    | t :: ts => if sep c then [] :: t :: ts else (c :: t) :: ts

/-- Helper for `splitWs`. -/
def splitWsAux : List Char → List Char → List (List Char)
  | [], acc => if acc.isEmpty then [] else [acc.reverse]
  | c :: rest, acc =>
    if wsp c then
      if acc.isEmpty then splitWsAux rest []
      else acc.reverse :: splitWsAux rest []
    else splitWsAux rest (c :: acc)

/-- Models Rust `str::split_whitespace` (runs of whitespace separate the
tokens, no empty tokens are produced). -/
def splitWs (l : List Char) : List (List Char) := splitWsAux l []

/-- Helper for `trimStartMatches`: strip the pattern from the front as
long as it is a (nonempty) prefix.  Each successful step strips at least
one character, so a fuel equal to the length of the string suffices and
keeps the recursion structural. -/
def trimStartMatchesGo (pat : List Char) : Nat → List Char → List Char
  | 0, s => s
  | fuel + 1, s =>
    if pat.isPrefixOf s && !pat.isEmpty then
      trimStartMatchesGo pat fuel (s.drop pat.length)
    else s

/-- Models Rust `str::trim_start_matches` for a string pattern: the
pattern is stripped from the front repeatedly as long as it is a prefix. -/
def trimStartMatches (pat : List Char) (s : List Char) : List Char :=
  trimStartMatchesGo pat s.length s

/-- Models Rust `str::trim_end_matches` for a string pattern (repeated
removal of the pattern as a suffix, expressed via reversal). -/
def trimEndMatches (pat : List Char) (s : List Char) : List Char :=
  (trimStartMatches pat.reverse s.reverse).reverse

/-- Models Rust `str::trim_matches` with a character-predicate pattern:
all leading and trailing characters satisfying the predicate are
removed. -/
def trimMatchesPred (p : Char → Bool) (s : List Char) : List Char :=
  (( (s.dropWhile p).reverse.dropWhile p)).reverse

/-- Strip a single trailing carriage return (Rust `lines` strips one
`\r` from a segment that was terminated by `\n`). -/
def stripCR (l : List Char) : List Char :=
  match l.getLast? with
  | some c => if c = '\r' then l.dropLast else l
  | none => l

/-- Helper for `splitLines`. -/
def splitLinesAux : List Char → List Char → List (List Char)
  | [], acc => if acc.isEmpty then [] else [acc.reverse]
  | c :: rest, acc =>
    if c = '\n' then stripCR acc.reverse :: splitLinesAux rest []
    else splitLinesAux rest (c :: acc)

/-- Models Rust `str::lines`: split at `\n`, strip one trailing `\r`
from each terminated segment, and do not produce a final empty line for
a trailing terminator. -/
def splitLines (s : List Char) : List (List Char) := splitLinesAux s []

/-!
## Regex engine

The `CSharpProcessor` regexes are built with the `regex` crate, which
uses leftmost-first match semantics with greedy quantifiers, like a
classical backtracking engine.  All nine patterns are anchored with `^`
and their quantifiers (`*`, `+`) are applied only to character classes,
so the engine below enumerates the candidate matches in backtracking
priority order and `reCaptures` takes the first one, exactly the match
`Regex::captures` reports.
-/

/-- Regex abstract syntax: empty string, a single character from a
class, sequencing, prioritized alternation, a numbered capture group,
and greedy star/plus over a character class. -/
inductive RE where
  | eps : RE
  | sym : (Char → Bool) → RE
  | seq : RE → RE → RE
  | alt : RE → RE → RE
  | grp : Nat → RE → RE
  | starCls : (Char → Bool) → RE
  | plusCls : (Char → Bool) → RE

/-- Captured groups of one match candidate: group number together with
the captured text. -/
abbrev Caps := List (Nat × List Char)

/-- Remainders after greedily consuming `0..` characters of a class,
longest consumption first. -/
def starRems (p : Char → Bool) : List Char → List (List Char)
  | [] => [[]]
  | c :: s => if p c then starRems p s ++ [c :: s] else [c :: s]

/-- Remainders after greedily consuming `1..` characters of a class,
longest consumption first. -/
def plusRems (p : Char → Bool) : List Char → List (List Char)
  | [] => []
  | c :: s => if p c then starRems p s else []

/-- All match candidates of a regex against the front of the input, in
backtracking priority order; each candidate is its captured groups
together with the unconsumed remainder. -/
def reMatch : RE → List Char → List (Caps × List Char)
  | .eps, s => [([], s)]
  | .sym _, [] => []
  | .sym p, c :: s => if p c then [([], s)] else []
  | .seq a b, s =>
    (reMatch a s).flatMap fun kr =>
      (reMatch b kr.2).map fun kr2 => (kr.1 ++ kr2.1, kr2.2)
  | .alt a b, s => reMatch a s ++ reMatch b s
  | .grp n a, s =>
    (reMatch a s).map fun kr => ((n, s.take (s.length - kr.2.length)) :: kr.1, kr.2)
  | .starCls p, s => (starRems p s).map fun r => ([], r)
  | .plusCls p, s => (plusRems p s).map fun r => ([], r)

/-- Models `Regex::captures` for the (all `^`-anchored) processor
regexes: the captures of the leftmost-first match, if any. -/
def reCaptures (r : RE) (s : List Char) : Option Caps :=
  (reMatch r s).head?.map (·.1)

/-- Models `Captures::get(n)` (`none` when the group did not participate
in the match). -/
def capGet (k : Caps) (n : Nat) : Option (List Char) :=
  (k.find? fun e => e.1 == n).map (·.2)

/-- A literal string as a regex. -/
def lit (w : String) : RE :=
  (strL w).foldr (fun c r => RE.seq (RE.sym fun x => x == c) r) RE.eps

/-- Sequencing of a list of regexes. -/
def seqs (rs : List RE) : RE := rs.foldr RE.seq RE.eps

/-- Prioritized alternation of a list of literal words (as in
`(public|private|protected|internal)`). -/
def alts (ws : List String) : RE :=
  match ws with
  | [] => RE.eps
  | [w] => lit w
  | w :: rest => RE.alt (lit w) (alts rest)

/-- An optional capture group `( ... )?`: matching the group is
preferred over skipping it. -/
def optG (n : Nat) (r : RE) : RE := RE.alt (RE.grp n r) RE.eps

/-!
## Data model of the extraction contract

Translated from the `Dependency`, `ParameterInfo` and `InterfaceInfo`
structs used by `CSharpProcessor` (fields kept in source order and with
the source names).
-/

/-- One directed dependency edge extracted from a source file. -/
structure Dependency where
  name : String
  path : Option String
  is_external : Bool
  line_number : Option Nat
  dependency_type : String
  version : Option String
deriving DecidableEq

/-- A formal parameter of an extracted callable. -/
structure ParameterInfo where
  name : String
  param_type : String
  is_optional : Bool
  description : Option String
deriving DecidableEq

/-- One declared symbol extracted from a source file. -/
structure InterfaceInfo where
  name : String
  interface_type : String
  visibility : String
  parameters : List ParameterInfo
  return_type : Option String
  description : Option String
deriving DecidableEq

/-!
## The nine `CSharpProcessor` regexes

Each is a direct transliteration of the pattern string in
`CSharpProcessor::new`, with groups numbered as in the pattern.
-/

/-- The class `[^;]`. -/
def notSemi (c : Char) : Bool := c != ';'

/-- The class `[^;\{]`. -/
def notSemiBrace (c : Char) : Bool := c != ';' && c != lbraceChar

/-- The class `[^)]`. -/
def notRParen (c : Char) : Bool := c != ')'

/-- The visibility alternation `(public|private|protected|internal)`. -/
def visAlt : RE := alts ["public", "private", "protected", "internal"]

/-- Pattern `^\s*using\s+([^;]+);`. -/
def using_regex : RE :=
  seqs [RE.starCls wsp, lit "using", RE.plusCls wsp,
        RE.grp 1 (RE.plusCls notSemi), RE.sym (· == ';')]

/-- Pattern `^\s*namespace\s+([^;\{]+)`. -/
def namespace_regex : RE :=
  seqs [RE.starCls wsp, lit "namespace", RE.plusCls wsp,
        RE.grp 1 (RE.plusCls notSemiBrace)]

/-- Pattern
`^\s*(public|private|protected|internal)?\s*(static)?\s*(virtual|override|abstract|sealed)?\s*(async)?\s*(\w+)\s+(\w+)\s*\(([^)]*)\)`. -/
def method_regex : RE :=
  seqs [RE.starCls wsp, optG 1 visAlt, RE.starCls wsp,
        optG 2 (lit "static"), RE.starCls wsp,
        optG 3 (alts ["virtual", "override", "abstract", "sealed"]), RE.starCls wsp,
        optG 4 (lit "async"), RE.starCls wsp,
        RE.grp 5 (RE.plusCls wrd), RE.plusCls wsp,
        RE.grp 6 (RE.plusCls wrd), RE.starCls wsp,
        RE.sym (· == '('), RE.grp 7 (RE.starCls notRParen), RE.sym (· == ')')]

/-- Pattern
`^\s*(public|private|protected|internal)?\s*(static)?\s*(abstract)?\s*(sealed)?\s*(partial)?\s*class\s+(\w+)`. -/
def class_regex : RE :=
  seqs [RE.starCls wsp, optG 1 visAlt, RE.starCls wsp,
        optG 2 (lit "static"), RE.starCls wsp,
        optG 3 (lit "abstract"), RE.starCls wsp,
        optG 4 (lit "sealed"), RE.starCls wsp,
        optG 5 (lit "partial"), RE.starCls wsp,
        lit "class", RE.plusCls wsp, RE.grp 6 (RE.plusCls wrd)]

/-- Pattern
`^\s*(public|private|protected|internal)?\s*(partial)?\s*interface\s+(\w+)`. -/
def interface_regex : RE :=
  seqs [RE.starCls wsp, optG 1 visAlt, RE.starCls wsp,
        optG 2 (lit "partial"), RE.starCls wsp,
        lit "interface", RE.plusCls wsp, RE.grp 3 (RE.plusCls wrd)]

/-- Pattern `^\s*(public|private|protected|internal)?\s*enum\s+(\w+)`. -/
def enum_regex : RE :=
  seqs [RE.starCls wsp, optG 1 visAlt, RE.starCls wsp,
        lit "enum", RE.plusCls wsp, RE.grp 2 (RE.plusCls wrd)]

/-- Pattern
`^\s*(public|private|protected|internal)?\s*(readonly)?\s*(partial)?\s*struct\s+(\w+)`. -/
def struct_regex : RE :=
  seqs [RE.starCls wsp, optG 1 visAlt, RE.starCls wsp,
        optG 2 (lit "readonly"), RE.starCls wsp,
        optG 3 (lit "partial"), RE.starCls wsp,
        lit "struct", RE.plusCls wsp, RE.grp 4 (RE.plusCls wrd)]

/-- Pattern
`^\s*(public|private|protected|internal)?\s*(static)?\s*(virtual|override|abstract)?\s*(\w+)\s+(\w+)\s*\{\s*(get|set)`. -/
def property_regex : RE :=
  seqs [RE.starCls wsp, optG 1 visAlt, RE.starCls wsp,
        optG 2 (lit "static"), RE.starCls wsp,
        optG 3 (alts ["virtual", "override", "abstract"]), RE.starCls wsp,
        RE.grp 4 (RE.plusCls wrd), RE.plusCls wsp,
        RE.grp 5 (RE.plusCls wrd), RE.starCls wsp,
        RE.sym (· == lbraceChar), RE.starCls wsp,
        RE.grp 6 (alts ["get", "set"])]

/-- Pattern `^\s*(public|private|protected|internal)?\s*(\w+)\s*\(([^)]*)\)`. -/
def constructor_regex : RE :=
  seqs [RE.starCls wsp, optG 1 visAlt, RE.starCls wsp,
        RE.grp 2 (RE.plusCls wrd), RE.starCls wsp,
        RE.sym (· == '('), RE.grp 3 (RE.starCls notRParen), RE.sym (· == ')')]

/-!
## `.cs` dependency extraction (the per-line loop of
`extract_dependencies`)
-/

/-- Models `CSharpProcessor::extract_dependency_name`: the last
`.`-separated component of a using path. -/
def extract_dependency_name (using_path : List Char) : String :=
  match (splitOnChar '.' using_path).getLast? with
  | some namespace_name => chStr namespace_name
  | none => chStr using_path

/-- The `namespace` branch of the `.cs` per-line loop. -/
def csNamespacePart (src : String) (i : Nat) (line : List Char) : List Dependency :=
  match reCaptures namespace_regex line with
  | some k =>
    match capGet k 1 with
    | some namespace_name =>
      [{ name := chStr (trim namespace_name), path := some src, is_external := false,
         line_number := some (i + 1), dependency_type := "namespace", version := none }]
    | none => []
  | none => []

/-- The per-line body of the `.cs` branch of `extract_dependencies`:
the `using` branch (whose static/alias skip is a `continue`, so it also
skips the `namespace` check), then the `namespace` branch. -/
def csLineDeps (src : String) (i : Nat) (line : List Char) : List Dependency :=
  match reCaptures using_regex line with
  | some k =>
    match capGet k 1 with
    | some using_path =>
      let using_str := trim using_path
      if startsWith (strL "static ") using_str || containsSub (strL " = ") using_str then
        []
      else
        let is_external := startsWith (strL "System") using_str ||
                           startsWith (strL "Microsoft") using_str ||
                           !(using_str.contains '.')
        { name := extract_dependency_name using_str, path := some src,
          is_external := is_external, line_number := some (i + 1),
          dependency_type := "using", version := none } :: csNamespacePart src i line
    | none => csNamespacePart src i line
  | none => csNamespacePart src i line

/-- Accumulate the per-line records of a line-indexed extractor over a
list of lines, starting at line index `k` (models the
`content.lines().enumerate()` loops). -/
def overLines {α : Type} (f : Nat → List Char → List α) : Nat → List (List Char) → List α
  | _, [] => []
  | i, l :: rest => f i l ++ overLines f (i + 1) rest

/-- Accumulate per-line records where a line may abort the whole
extraction (models a loop body that can panic). -/
def overLinesOpt {α : Type} (f : Nat → List Char → Option (List α)) :
    Nat → List (List Char) → Option (List α)
  | _, [] => some []
  | i, l :: rest =>
    match f i l with
    | none => none
    | some ds =>
      match overLinesOpt f (i + 1) rest with
      | none => none
      | some rs => some (ds ++ rs)

/-!
## `.csproj`, `.sln`, `.sqlproj` extraction (block scanners)
-/

/-- The `<PackageReference ...>` branch of
`extract_csproj_dependencies`. -/
def csprojPackagePart (src : String) (i : Nat) (trimmed : List Char) : List Dependency :=
  if startsWith (strL "<PackageReference") trimmed && containsSub (strL "Include=") trimmed then
    match afterSub (strL "Include=\"") trimmed with
    | some after_include =>
      match takeBefore '"' after_include with
      | some package_name =>
        let version :=
          match afterSub (strL "Version=\"") trimmed with
          | some after_version => (takeBefore '"' after_version).map chStr
          | none => none
        [{ name := chStr package_name, path := some src, is_external := true,
           line_number := some (i + 1), dependency_type := "nuget_package",
           version := version }]
      | none => []
    | none => []
  else []

/-- The `<ProjectReference ...>` branch of
`extract_csproj_dependencies`. -/
def csprojProjectPart (src : String) (i : Nat) (trimmed : List Char) : List Dependency :=
  if startsWith (strL "<ProjectReference") trimmed && containsSub (strL "Include=") trimmed then
    match afterSub (strL "Include=\"") trimmed with
    | some after_include =>
      match takeBefore '"' after_include with
      | some project_path =>
        let project_name :=
          trimEndMatches (strL ".csproj")
            (((splitOnPred fun c => c == '/' || c == '\\') project_path).getLastD project_path)
        [{ name := chStr project_name, path := some src, is_external := false,
           line_number := some (i + 1), dependency_type := "project_reference",
           version := none }]
      | none => []
    | none => []
  else []

/-- The `<FrameworkReference ...>` branch of
`extract_csproj_dependencies`. -/
def csprojFrameworkPart (src : String) (i : Nat) (trimmed : List Char) : List Dependency :=
  if startsWith (strL "<FrameworkReference") trimmed && containsSub (strL "Include=") trimmed then
    match afterSub (strL "Include=\"") trimmed with
    | some after_include =>
      match takeBefore '"' after_include with
      | some framework_name =>
        [{ name := chStr framework_name, path := some src, is_external := true,
           line_number := some (i + 1), dependency_type := "framework_reference",
           version := none }]
      | none => []
    | none => []
  else []

/-- The per-line body of `extract_csproj_dependencies`. -/
def csprojLineDeps (src : String) (i : Nat) (line : List Char) : List Dependency :=
  let trimmed := trim line
  csprojPackagePart src i trimmed ++ csprojProjectPart src i trimmed ++
    csprojFrameworkPart src i trimmed

/-- Models `CSharpProcessor::extract_csproj_dependencies`. -/
def extract_csproj_dependencies (content : List Char) (src : String) : List Dependency :=
  overLines (csprojLineDeps src) 0 (splitLines content)

/-- The per-line body of `extract_sln_dependencies` (solution project
entries). -/
def slnLineDeps (src : String) (i : Nat) (line : List Char) : List Dependency :=
  let trimmed := trim line
  if startsWith (strL "Project(") trimmed && containsSub (strL ".csproj") trimmed then
    match afterSub (strL "= \"") trimmed with
    | some after_equals =>
      match takeBefore '"' after_equals with
      | some project_name =>
        [{ name := chStr project_name, path := some src, is_external := false,
           line_number := some (i + 1), dependency_type := "solution_project",
           version := none }]
      | none => []
    | none => []
  else []

/-- Models `CSharpProcessor::extract_sln_dependencies`. -/
def extract_sln_dependencies (content : List Char) (src : String) : List Dependency :=
  overLines (slnLineDeps src) 0 (splitLines content)

/-- The `<Build/<PreDeploy/<PostDeploy ...>` branch of
`extract_sqlproj_dependencies`. -/
def sqlprojBuildPart (src : String) (i : Nat) (trimmed : List Char) : List Dependency :=
  if (startsWith (strL "<Build") trimmed || startsWith (strL "<PreDeploy") trimmed ||
      startsWith (strL "<PostDeploy") trimmed) && containsSub (strL "Include=") trimmed then
    match afterSub (strL "Include=\"") trimmed with
    | some after_include =>
      match takeBefore '"' after_include with
      | some file_path =>
        let parts := (splitOnPred fun c => c == '/' || c == '\\' || c == '.') file_path
        let object_type :=
          if parts.length > 2 then chStr (parts.getD (parts.length - 3) [])
          else "sql_object"
        let object_name := chStr ((parts.reverse.getD 1 (strL "unknown")))
        [{ name := object_name, path := some src, is_external := false,
           line_number := some (i + 1), dependency_type := object_type,
           version := none }]
      | none => []
    | none => []
  else []

/-- The `<ProjectReference ...>` branch of
`extract_sqlproj_dependencies`. -/
def sqlprojProjectPart (src : String) (i : Nat) (trimmed : List Char) : List Dependency :=
  if startsWith (strL "<ProjectReference") trimmed && containsSub (strL "Include=") trimmed then
    match afterSub (strL "Include=\"") trimmed with
    | some after_include =>
      match takeBefore '"' after_include with
      | some project_path =>
        let project_name :=
          trimEndMatches (strL ".sqlproj")
            (((splitOnPred fun c => c == '/' || c == '\\') project_path).getLastD project_path)
        [{ name := chStr project_name, path := some src, is_external := false,
           line_number := some (i + 1), dependency_type := "database_reference",
           version := none }]
      | none => []
    | none => []
  else []

/-- The `<ArtifactReference ...>` branch of
`extract_sqlproj_dependencies`. -/
def sqlprojArtifactPart (src : String) (i : Nat) (trimmed : List Char) : List Dependency :=
  if startsWith (strL "<ArtifactReference") trimmed && containsSub (strL "Include=") trimmed then
    match afterSub (strL "Include=\"") trimmed with
    | some after_include =>
      match takeBefore '"' after_include with
      | some dacpac_path =>
        let dacpac_name :=
          trimEndMatches (strL ".dacpac")
            (((splitOnPred fun c => c == '/' || c == '\\') dacpac_path).getLastD dacpac_path)
        [{ name := chStr dacpac_name, path := some src, is_external := true,
           line_number := some (i + 1), dependency_type := "dacpac_reference",
           version := none }]
      | none => []
    | none => []
  else []

/-- The per-line body of `extract_sqlproj_dependencies`. -/
def sqlprojLineDeps (src : String) (i : Nat) (line : List Char) : List Dependency :=
  let trimmed := trim line
  sqlprojBuildPart src i trimmed ++ sqlprojProjectPart src i trimmed ++
    sqlprojArtifactPart src i trimmed

/-- Models `CSharpProcessor::extract_sqlproj_dependencies`. -/
def extract_sqlproj_dependencies (content : List Char) (src : String) : List Dependency :=
  overLines (sqlprojLineDeps src) 0 (splitLines content)

/-!
## `.sql` extraction

`extract_sql_dependencies` computes `line.to_uppercase()` and then
slices `line` with byte offsets found in the uppercased string.  These
byte ranges differ whenever uppercasing changes the UTF-8 length of a
character, so the slice can panic; hence the `Option` results.
-/

/-- Rust `char::to_uppercase`, restricted to the characters occurring in
the inputs of this development: ASCII letters map to their ASCII
uppercase, and U+0149 (the deprecated "'n" letter) expands to the
two-character sequence U+02BC U+004E, per the Unicode special casing
table. All other characters are left unchanged. -/
def charUpper (c : Char) : List Char :=
  if 'a' ≤ c && c ≤ 'z' then [Char.ofNat (c.toNat - 32)]
  else if c = Char.ofNat 0x149 then [Char.ofNat 0x2BC, 'N']
  else [c]

/-- Models Rust `str::to_uppercase` (character-wise full uppercasing). -/
def strUpper (s : List Char) : List Char := s.flatMap charUpper

/-- The character set kept by the SQL extractor's `trim_matches`
closure: everything that is not alphanumeric, `.`, `_`, `[` or `]` is
trimmed. -/
def sqlTrimmedChar (c : Char) : Bool :=
  !(c.isAlphanum) && c != '.' && c != '_' && c != '[' && c != ']'

/-- Models the idiom `split_whitespace().next().unwrap_or("")`. -/
def firstWord (s : List Char) : List Char := (splitWs s).headD []

/-- One table/procedure-reference branch of the SQL per-line loop: find
the byte position of `needle` in the uppercased line, slice the original
line just past it (possibly panicking), and take the first word, trimmed
of punctuation. `none` models the panic. -/
def sqlRefPart (needle : List Char) (dep_type : String) (src : String) (i : Nat)
    (line upper : List Char) : Option (List Dependency) :=
  match findSubByte needle upper with
  | none => some []
  | some pos =>
    match byteDrop line (pos + needle.length) with
    | none => none
    | some after =>
      let table_part := trimMatchesPred sqlTrimmedChar (firstWord after)
      if table_part.isEmpty then some []
      else some [{ name := chStr table_part, path := some src, is_external := false,
                   line_number := some (i + 1), dependency_type := dep_type,
                   version := none }]

/-- The `EXEC`/`EXECUTE` branch of the SQL per-line loop. -/
def sqlExecPart (src : String) (i : Nat) (line upper : List Char) : Option (List Dependency) :=
  if containsSub (strL "EXEC ") upper || containsSub (strL "EXECUTE ") upper then
    let exec_pos :=
      match findSubByte (strL "EXECUTE ") upper with
      | some pos => some (pos + 8)
      | none =>
        match findSubByte (strL "EXEC ") upper with
        | some pos => some (pos + 5)
        | none => none
    match exec_pos with
    | none => some []
    | some pos =>
      match byteDrop line pos with
      | none => none
      | some after_exec =>
        let proc_name := trimMatchesPred sqlTrimmedChar (firstWord after_exec)
        if !proc_name.isEmpty && !(startsWith (strL "@") proc_name) then
          some [{ name := chStr proc_name, path := some src, is_external := false,
                  line_number := some (i + 1), dependency_type := "stored_procedure_call",
                  version := none }]
        else some []
  else some []

/-- The `UPDATE` branch (guarded against `UPDATE STATISTICS`). -/
def sqlUpdatePart (src : String) (i : Nat) (line upper : List Char) : Option (List Dependency) :=
  if containsSub (strL "UPDATE ") upper && !(containsSub (strL "UPDATE STATISTICS") upper) then
    sqlRefPart (strL "UPDATE ") "table_reference" src i line upper
  else some []

/-- The per-line body of `extract_sql_dependencies` (comment lines are
skipped; each branch may panic on the byte slice). -/
def sqlLineDeps (src : String) (i : Nat) (line : List Char) : Option (List Dependency) :=
  let upper := strUpper line
  let trimmed := trim line
  if startsWith (strL "--") trimmed || startsWith (strL "/*") trimmed then some []
  else
    match sqlRefPart (strL " FROM ") "table_reference" src i line upper with
    | none => none
    | some d1 =>
      match sqlRefPart (strL " JOIN ") "table_reference" src i line upper with
      | none => none
      | some d2 =>
        match sqlRefPart (strL "INSERT INTO ") "table_reference" src i line upper with
        | none => none
        | some d3 =>
          match sqlUpdatePart src i line upper with
          | none => none
          | some d4 =>
            match sqlRefPart (strL "DELETE FROM ") "table_reference" src i line upper with
            | none => none
            | some d5 =>
              match sqlExecPart src i line upper with
              | none => none
              | some d6 => some (d1 ++ d2 ++ d3 ++ d4 ++ d5 ++ d6)

/-- Models `CSharpProcessor::extract_sql_dependencies` (`none` when some
line panics). -/
def extract_sql_dependencies (content : List Char) (src : String) : Option (List Dependency) :=
  overLinesOpt (sqlLineDeps src) 0 (splitLines content)

/-- Models `CSharpProcessor::extract_dependencies`: dispatch on the file
extension, defaulting to the `.cs` per-line scan.  The result is `none`
exactly when the Rust code would panic. -/
def extract_dependencies (ext : String) (content : List Char) (src : String) :
    Option (List Dependency) :=
  if ext == "csproj" then some (extract_csproj_dependencies content src)
  else if ext == "sqlproj" then some (extract_sqlproj_dependencies content src)
  else if ext == "sln" then some (extract_sln_dependencies content src)
  else if ext == "sql" then extract_sql_dependencies content src
  else some (overLines (csLineDeps src) 0 (splitLines content))

/-!
## XML documentation comments and interface extraction
-/

/-- The collected text of one (already trimmed) `///` line, following
the `<summary>` filtering of `extract_xml_doc`: `none` when the line
contributes no text. -/
def docLineText (t : List Char) : Option (List Char) :=
  let content := trim (trimStartMatches (strL "///") t)
  if startsWith (strL "<summary>") content then
    let text := trim (trimEndMatches (strL "</summary>")
                        (trimStartMatches (strL "<summary>") content))
    if text.isEmpty then none else some text
  else if endsWith (strL "</summary>") content then
    let text := trim (trimEndMatches (strL "</summary>") content)
    if text.isEmpty then none else some text
  else if !content.isEmpty && !(startsWith (strL "<") content) &&
          !(endsWith (strL ">") content) then
    some content
  else none

/-- The upward walk of `extract_xml_doc` over the lines above the
declaration (already reversed, nearest line first).  Collected lines are
pushed to the front of the accumulator, which models
`doc_lines.insert(0, ...)`. -/
def xmlDocWalk : List (List Char) → List (List Char) → List (List Char)
  | [], acc => acc
  | l :: rest, acc =>
    let t := trim l
    if startsWith (strL "///") t then
      match docLineText t with
      | some text => xmlDocWalk rest (text :: acc)
      | none => xmlDocWalk rest acc
    else if !t.isEmpty && !(startsWith (strL "[") t) then acc
    else xmlDocWalk rest acc

/-- Join collected documentation lines with single spaces
(`doc_lines.join(" ")`). -/
def joinSpace (ds : List (List Char)) : String :=
  String.intercalate " " (ds.map chStr)

/-- Models `CSharpProcessor::extract_xml_doc`: walk upward from the line
at index `current_line`, collect `///` content, skip blank and
attribute lines, and stop at any other line. -/
def extract_xml_doc (lines : List (List Char)) (current_line : Nat) : Option String :=
  let doc_lines := xmlDocWalk ((lines.take current_line).reverse) []
  if doc_lines.isEmpty then none else some (joinSpace doc_lines)

/-- Models `CSharpProcessor::parse_csharp_parameters` for one
comma-separated parameter. -/
def parseOneParam (param0 : List Char) : List ParameterInfo :=
  let param := trim param0
  if param.isEmpty then []
  else
    let parts := splitWs param
    if parts.length ≥ 2 then
      let p0 := parts.getD 0 []
      if p0 = strL "ref" || p0 = strL "out" || p0 = strL "in" || p0 = strL "params" then
        if parts.length ≥ 3 then
          [{ name := chStr (parts.getD 2 []), param_type := chStr (parts.getD 1 []),
             is_optional := false, description := none }]
        else []
      else
        let has_default := param.contains '='
        let p1 := parts.getD 1 []
        let pname := (splitOnChar '=' p1).headD p1
        [{ name := chStr pname, param_type := chStr p0,
           is_optional := has_default, description := none }]
    else []

/-- Models `CSharpProcessor::parse_csharp_parameters`. -/
def parse_csharp_parameters (params_str : List Char) : List ParameterInfo :=
  if (trim params_str).isEmpty then []
  else ((splitOnChar ',') params_str).flatMap parseOneParam

/-- The C# keywords that disqualify a `method_regex` match (its "return
type" is actually a control-flow keyword). -/
def isCsKeyword (return_type : String) : Bool :=
  return_type == "if" || return_type == "for" || return_type == "while" ||
  return_type == "foreach" || return_type == "switch" || return_type == "try" ||
  return_type == "using" || return_type == "lock"

/-- The class branch of `extract_interfaces`. -/
def classPart (lines : List (List Char)) (i : Nat) (line : List Char) : List InterfaceInfo :=
  match reCaptures class_regex line with
  | some k =>
    let visibility := ((capGet k 1).map chStr).getD "private"
    let is_static := (capGet k 2).isSome
    let is_abstract := (capGet k 3).isSome
    let is_sealed := (capGet k 4).isSome
    let isPartCap := (capGet k 5).isSome
    let name := ((capGet k 6).map chStr).getD ""
    let interface_type :=
      if is_static then "static_class"
      else if is_abstract then "abstract_class"
      else if is_sealed then "sealed_class"
      else if isPartCap then "partial_class"
      else "class"
    [{ name := name, interface_type := interface_type, visibility := visibility,
       parameters := [], return_type := none, description := extract_xml_doc lines i }]
  | none => []

/-- The interface branch of `extract_interfaces`. -/
def interfacePart (lines : List (List Char)) (i : Nat) (line : List Char) : List InterfaceInfo :=
  match reCaptures interface_regex line with
  | some k =>
    let visibility := ((capGet k 1).map chStr).getD "private"
    let isPartCap := (capGet k 2).isSome
    let name := ((capGet k 3).map chStr).getD ""
    let interface_type := if isPartCap then "partial_interface" else "interface"
    [{ name := name, interface_type := interface_type, visibility := visibility,
       parameters := [], return_type := none, description := extract_xml_doc lines i }]
  | none => []

/-- The struct branch of `extract_interfaces`. -/
def structPart (lines : List (List Char)) (i : Nat) (line : List Char) : List InterfaceInfo :=
  match reCaptures struct_regex line with
  | some k =>
    let visibility := ((capGet k 1).map chStr).getD "private"
    let is_readonly := (capGet k 2).isSome
    let isPartCap := (capGet k 3).isSome
    let name := ((capGet k 4).map chStr).getD ""
    let interface_type :=
      if is_readonly then "readonly_struct"
      else if isPartCap then "partial_struct"
      else "struct"
    [{ name := name, interface_type := interface_type, visibility := visibility,
       parameters := [], return_type := none, description := extract_xml_doc lines i }]
  | none => []

/-- The enum branch of `extract_interfaces`. -/
def enumPart (lines : List (List Char)) (i : Nat) (line : List Char) : List InterfaceInfo :=
  match reCaptures enum_regex line with
  | some k =>
    let visibility := ((capGet k 1).map chStr).getD "private"
    let name := ((capGet k 2).map chStr).getD ""
    [{ name := name, interface_type := "enum", visibility := visibility,
       parameters := [], return_type := none, description := extract_xml_doc lines i }]
  | none => []

/-- The property branch of `extract_interfaces`. -/
def propertyPart (lines : List (List Char)) (i : Nat) (line : List Char) : List InterfaceInfo :=
  match reCaptures property_regex line with
  | some k =>
    let visibility := ((capGet k 1).map chStr).getD "private"
    let is_static := (capGet k 2).isSome
    let modifier := ((capGet k 3).map chStr).getD ""
    let return_type := ((capGet k 4).map chStr).getD ""
    let name := ((capGet k 5).map chStr).getD ""
    let interface_type :=
      if is_static then "static_property"
      else if modifier == "virtual" then "virtual_property"
      else if modifier == "override" then "override_property"
      else if modifier == "abstract" then "abstract_property"
      else "property"
    [{ name := name, interface_type := interface_type, visibility := visibility,
       parameters := [], return_type := some return_type,
       description := extract_xml_doc lines i }]
  | none => []

/-- The constructor branch of `extract_interfaces` (only names starting
with an uppercase letter count). -/
def constructorPart (lines : List (List Char)) (i : Nat) (line : List Char) : List InterfaceInfo :=
  match reCaptures constructor_regex line with
  | some k =>
    let visibility := ((capGet k 1).map chStr).getD "private"
    let name := (capGet k 2).getD []
    let params_str := (capGet k 3).getD []
    if (name.headD ' ').isUpper then
      [{ name := chStr name, interface_type := "constructor", visibility := visibility,
         parameters := parse_csharp_parameters params_str, return_type := none,
         description := extract_xml_doc lines i }]
    else []
  | none => []

/-- The method branch of `extract_interfaces` together with the
constructor branch: the keyword skip is a `continue`, so it also skips
the constructor check for that line. -/
def methodAndCtorPart (lines : List (List Char)) (i : Nat) (line : List Char) :
    List InterfaceInfo :=
  match reCaptures method_regex line with
  | some k =>
    let visibility := ((capGet k 1).map chStr).getD "private"
    let is_static := (capGet k 2).isSome
    let modifier := ((capGet k 3).map chStr).getD ""
    let is_async := (capGet k 4).isSome
    let return_type := ((capGet k 5).map chStr).getD ""
    let name := ((capGet k 6).map chStr).getD ""
    let params_str := (capGet k 7).getD []
    if isCsKeyword return_type then []
    else
      let interface_type :=
        if is_static then "static_method"
        else if is_async then "async_method"
        else if modifier == "virtual" then "virtual_method"
        else if modifier == "override" then "override_method"
        else if modifier == "abstract" then "abstract_method"
        else if modifier == "sealed" then "sealed_method"
        else "method"
      [{ name := name, interface_type := interface_type, visibility := visibility,
         parameters := parse_csharp_parameters params_str,
         return_type := some return_type,
         description := extract_xml_doc lines i }] ++ constructorPart lines i line
  | none => constructorPart lines i line

/-- The per-line body of `extract_interfaces` (each branch is an
independent `if let`, so one line can produce several records). -/
def interfacesForLine (lines : List (List Char)) (i : Nat) (line : List Char) :
    List InterfaceInfo :=
  classPart lines i line ++ interfacePart lines i line ++ structPart lines i line ++
    enumPart lines i line ++ propertyPart lines i line ++ methodAndCtorPart lines i line

/-- Models `CSharpProcessor::extract_interfaces` (the file path argument
is unused in the source). -/
def extract_interfaces (content : List Char) : List InterfaceInfo :=
  let lines := splitLines content
  overLines (interfacesForLine lines) 0 lines

/-!
## Knowledge sync (`knowledge_sync.rs`, `local_docs.rs`)

Timestamps (`DateTime<Utc>`) are modelled as integers; the filesystem
visible to `KnowledgeSyncer` is modelled by `FsState`: whether the
`_metadata.json` file exists, what it parses to (`none` models a read or
parse failure, which the `?` operator propagates), and the modification
times of the recorded source files (`none` for a missing/unreadable
file, which the code silently skips).  `Result` is modelled by
`Except String`.
-/

/-- Supported documentation file types (`DocFileType`). -/
inductive DocFileType where
  | Pdf : DocFileType
  | Markdown : DocFileType
  | Text : DocFileType
deriving DecidableEq

/-- Debug rendering of a `DocFileType` (for the `{:?}` format). -/
def docTypeRepr : DocFileType → String
  | .Pdf => "Pdf"
  | .Markdown => "Markdown"
  | .Text => "Text"

/-- Metadata about one processed local document (`LocalDocMetadata`). -/
structure LocalDocMetadata where
  file_path : String
  file_type : DocFileType
  last_modified : String
  processed_content : String
deriving DecidableEq

/-- Metadata about synced knowledge (`KnowledgeMetadata`). -/
structure KnowledgeMetadata where
  last_synced : Int
  local_docs : List LocalDocMetadata
deriving DecidableEq

/-- The `LocalDocsConfig` fields the synced operations read (the cache
directory only determines where `_metadata.json` lives and is folded
into `FsState`). -/
structure LocalDocsConfig where
  enabled : Bool
  watch_for_changes : Bool
  pdf_paths : List String
  markdown_paths : List String
  text_paths : List String
deriving DecidableEq

/-- The filesystem state `should_sync` and the cache loader observe. -/
structure FsState where
  metadata_exists : Bool
  metadata_parsed : Option KnowledgeMetadata
  mtimes : List (String × Int)
deriving DecidableEq

/-- Modification time of a source file, `none` when the file is missing
or its metadata is unreadable (the code skips such files). -/
def mtimeOf (fs : FsState) (p : String) : Option Int :=
  (fs.mtimes.find? fun q => q.1 == p).map (·.2)

/-- Models `KnowledgeSyncer::should_sync`.  The metadata file is read
and parsed only when `watch_for_changes` is set; a read/parse failure is
propagated as an error by the `?` operator. -/
def should_sync (local_docs : Option LocalDocsConfig) (fs : FsState) : Except String Bool :=
  match local_docs with
  | some cfg =>
    if !cfg.enabled then .ok false
    else if !fs.metadata_exists then .ok true
    else if cfg.watch_for_changes then
      match fs.metadata_parsed with
      | none => .error "parse"
      | some metadata =>
        .ok (metadata.local_docs.any fun doc =>
          match mtimeOf fs doc.file_path with
          | some modified => decide (modified > metadata.last_synced)
          | none => false)
    else .ok false
  | none => .ok false

/-- The combined-content rendering of `load_local_docs_cache` (the
`chrono` timestamp format is modelled by `toString`). -/
def renderDocs (target_lang : String) (metadata : KnowledgeMetadata) : String :=
  let header := "# Local Documentation (" ++ target_lang ++ ")\n\n" ++
    "Last processed: " ++ toString metadata.last_synced ++
    "\nTotal documents: " ++ toString metadata.local_docs.length ++ "\n\n"
  metadata.local_docs.foldl
    (fun acc doc =>
      acc ++ "\n---\n\n# " ++ doc.file_path ++ "\n\n" ++
        "Type: " ++ docTypeRepr doc.file_type ++ "\n" ++
        "Last Modified: " ++ doc.last_modified ++ "\n\n" ++
        doc.processed_content ++ "\n\n")
    header

/-- Models `KnowledgeSyncer::load_local_docs_cache`.  A read/parse
failure of an existing metadata file is propagated by `?`. -/
def load_local_docs_cache (local_docs : Option LocalDocsConfig) (fs : FsState)
    (target_lang : String) : Except String (Option String) :=
  match local_docs with
  | some cfg =>
    if cfg.enabled then
      if !fs.metadata_exists then .ok none
      else
        match fs.metadata_parsed with
        | none => .error "parse"
        | some metadata =>
          if metadata.local_docs.isEmpty then .ok none
          else .ok (some (renderDocs target_lang metadata))
    else .ok none
  | none => .ok none

/-- Models `KnowledgeSyncer::load_cached_knowledge` (delegates to the
local-docs cache loader). -/
def load_cached_knowledge (local_docs : Option LocalDocsConfig) (fs : FsState)
    (target_lang : String) : Except String (Option String) :=
  load_local_docs_cache local_docs fs target_lang

/-- The environment `sync_local_docs` runs against: the per-file result
of `LocalDocsProcessor::process_file`, and whether the cache-directory
creation and the metadata write succeed. -/
structure SyncEnv where
  proc : String → Except String LocalDocMetadata
  create_dir_ok : Bool
  write_ok : Bool

/-- One of the three per-kind loops of `sync_local_docs`: a failed file
is reported and skipped, a processed file is appended. -/
def processPaths (proc : String → Except String LocalDocMetadata) :
    List String → List LocalDocMetadata
  | [] => []
  | p :: rest =>
    match proc p with
    | .ok doc_meta => doc_meta :: processPaths proc rest
    | .error _ => processPaths proc rest

/-- Models `KnowledgeSyncer::sync_local_docs`.  The Rust function
returns `Ok(())` and writes the metadata file; the model returns the
written `KnowledgeMetadata` so the persisted record is observable. -/
def sync_local_docs (cfg : LocalDocsConfig) (env : SyncEnv) (now : Int) :
    Except String KnowledgeMetadata :=
  if !env.create_dir_ok then .error "Failed to create local docs cache directory"
  else
    let all_docs := processPaths env.proc cfg.pdf_paths ++
      processPaths env.proc cfg.markdown_paths ++ processPaths env.proc cfg.text_paths
    if !env.write_ok then .error "Failed to write metadata"
    else .ok { last_synced := now, local_docs := all_docs }

/-!
## Concrete fixtures for counterexamples and witnesses
-/

/-- A local-docs configuration with the integration enabled but change
watching disabled. -/
def cfgNoWatch : LocalDocsConfig :=
  { enabled := true, watch_for_changes := false,
    pdf_paths := [], markdown_paths := ["a.md"], text_paths := [] }

/-- A local-docs configuration with the integration enabled and change
watching enabled. -/
def cfgWatch : LocalDocsConfig :=
  { enabled := true, watch_for_changes := true,
    pdf_paths := [], markdown_paths := ["a.md"], text_paths := [] }

/-- A recorded document for the staleness fixtures. -/
def docA : LocalDocMetadata :=
  { file_path := "a.md", file_type := .Markdown, last_modified := "m", processed_content := "c" }

/-- A filesystem state whose metadata record (last synced at time 0)
lists `a.md`, while `a.md` on disk was modified at time 5 (stale). -/
def fsStale : FsState :=
  { metadata_exists := true,
    metadata_parsed := some { last_synced := 0, local_docs := [docA] },
    mtimes := [("a.md", 5)] }

/-- A filesystem state where the metadata file exists but fails to
parse. -/
def fsCorrupt : FsState :=
  { metadata_exists := true, metadata_parsed := none, mtimes := [] }

/-- A sync environment in which processing `b.pdf` fails and every other
file processes to a Markdown record. -/
def envOneBad : SyncEnv :=
  { proc := fun p =>
      if p == "b.pdf" then .error "bad pdf"
      else .ok { file_path := p, file_type := .Markdown, last_modified := "m",
                 processed_content := "c" },
    create_dir_ok := true, write_ok := true }

/-- The configuration for the partial-failure sync witness: one good
PDF, one bad PDF, one good Markdown file. -/
def cfgSync : LocalDocsConfig :=
  { enabled := true, watch_for_changes := false,
    pdf_paths := ["a.pdf", "b.pdf"], markdown_paths := ["c.md"], text_paths := [] }

/-- The C5 example line `using System.Collections.Generic;`. -/
def usingGenericLine : List Char := strL "using System.Collections.Generic;"

/-- The Dependency that `using System.Collections.Generic;` at 0-based
line index `i` of file `src` should produce. -/
def genericDep (src : String) (i : Nat) : Dependency :=
  { name := "Generic", path := some src, is_external := true,
    line_number := some (i + 1), dependency_type := "using", version := none }

/-- The C7 example line. -/
def packageRefLine : List Char :=
  strL "<PackageReference Include=\"Newtonsoft.Json\" Version=\"13.0.1\" />"

/-- The Dependency that the C7 example line at 0-based line index `i`
of file `src` should produce. -/
def newtonsoftDep (src : String) (i : Nat) : Dependency :=
  { name := "Newtonsoft.Json", path := some src, is_external := true,
    line_number := some (i + 1), dependency_type := "nuget_package",
    version := some "13.0.1" }

/-- SQL content on which `extract_dependencies` panics: uppercasing
U+0149 expands from two to three UTF-8 bytes, so the byte offset of
`" FROM "` found in the uppercased line (9) plus 6 lands past the end of
the original 13-byte line, and `&line[15..]` panics. -/
def sqlPanicContent : List Char := strL "ŉŉŉ FROM t"

/-- Content whose nearest documentation block above the declaration is
`/// B`, with a second block `/// A` separated from it by a blank line. -/
def twoBlockDocContent : List Char := strL "/// A\n\n/// B\npublic class Foo"

/-- Content where a plain (non-doc) `//` comment stands between a doc
block and the declaration. -/
def plainCommentDocContent : List Char := strL "/// A\n// x\npublic class Foo"

/-- The interface record extracted from `public class Foo : Bar`. -/
def fooClassInfo : InterfaceInfo :=
  { name := "Foo", interface_type := "class", visibility := "public",
    parameters := [], return_type := none, description := none }

/-- The per-line contribution of `extract_dependencies` for a given
extension (the `.sql` per-line result is read as empty when the line
would panic, which only matters below under the hypothesis that the
whole extraction succeeded). -/
def lineContrib (ext : String) (src : String) (i : Nat) (line : List Char) : List Dependency :=
  if ext == "csproj" then csprojLineDeps src i line
  else if ext == "sqlproj" then sqlprojLineDeps src i line
  else if ext == "sln" then slnLineDeps src i line
  else if ext == "sql" then (sqlLineDeps src i line).getD []
  else csLineDeps src i line

/-- A line that the upward documentation walk does not stop at: a `///`
comment, a blank line, or an attribute line. -/
def docWalkKeeps (l : List Char) : Bool :=
  let t := trim l
  startsWith (strL "///") t || t.isEmpty || startsWith (strL "[") t

/-- The text a line contributes to the documentation walk (`none` for
blank/attribute lines and for `///` lines whose content is filtered
out). -/
def docWalkText (l : List Char) : Option (List Char) :=
  let t := trim l
  if startsWith (strL "///") t then docLineText t else none

/-- The remainders `starRems p (u ++ t)` produces when every character
of `u` is in the class and the head of `t` is not: one remainder per
split point, longest consumption first (used to reason about the greedy
`[^;]+` group of the `using` regex). -/
def remTails (t : List Char) : List Char → List (List Char)
  | [] => [t]
  | c :: u => remTails t u ++ [c :: (u ++ t)]

/-!
## General lemmas about the per-line accumulation
-/

/-- Every record accumulated by `overLines` comes from some line, at the
line's own index. -/
theorem mem_overLines {α : Type} (f : Nat → List Char → List α) :
    ∀ (ls : List (List Char)) (k : Nat) (d : α), d ∈ overLines f k ls →
      ∃ j l, ls.get? j = some l ∧ d ∈ f (k + j) l
  | [], _, _, h => by simp [overLines] at h
  | l :: rest, k, d, h => by
    simp only [overLines, List.mem_append] at h
    cases h with
    | inl h0 => exact ⟨0, l, rfl, by simpa using h0⟩
    | inr h1 =>
      obtain ⟨j, l', hj, hd⟩ := mem_overLines f rest (k + 1) d h1
      refine ⟨j + 1, l', by simpa using hj, ?_⟩
      have : k + 1 + j = k + (j + 1) := by omega
      rwa [this] at hd

/-- Every record accumulated by a successful `overLinesOpt` run comes
from some line whose per-line extraction succeeded. -/
theorem mem_overLinesOpt {α : Type} (f : Nat → List Char → Option (List α)) :
    ∀ (ls : List (List Char)) (k : Nat) (ds : List α) (d : α),
      overLinesOpt f k ls = some ds → d ∈ ds →
      ∃ j l part, ls.get? j = some l ∧ f (k + j) l = some part ∧ d ∈ part
  | [], _, ds, d, hok, hd => by
    simp only [overLinesOpt] at hok
    cases hok
    simp at hd
  | l :: rest, k, ds, d, hok, hd => by
    simp only [overLinesOpt] at hok
    cases hf : f k l with
    | none => rw [hf] at hok; cases hok
    | some part =>
      rw [hf] at hok
      cases hrest : overLinesOpt f (k + 1) rest with
      | none => rw [hrest] at hok; cases hok
      | some rs =>
        rw [hrest] at hok
        cases hok
        rcases List.mem_append.mp hd with h0 | h1
        · exact ⟨0, l, part, rfl, by simpa using hf, h0⟩
        · obtain ⟨j, l', part', hj, hfp, hdp⟩ := mem_overLinesOpt f rest (k + 1) rs d hrest h1
          refine ⟨j + 1, l', part', by simpa using hj, ?_, hdp⟩
          have : k + 1 + j = k + (j + 1) := by omega
          rwa [this] at hfp

/-- If every record of a per-line extractor carries its own (1-based)
line index, then filtering the accumulated records by a line number
recovers exactly the records of that line. -/
theorem overLines_filter (f : Nat → List Char → List Dependency)
    (hf : ∀ j l d, d ∈ f j l → d.line_number = some (j + 1)) :
    ∀ (ls : List (List Char)) (k i : Nat) (line : List Char), ls.get? i = some line →
      (overLines f k ls).filter (fun d => d.line_number == some (k + i + 1)) = f (k + i) line
  | [], _, i, _, h => by simp at h
  | l :: rest, k, 0, line, h => by
    have hl : l = line := by simpa using h
    subst hl
    simp only [overLines, List.filter_append]
    have h1 : (f k l).filter (fun d => d.line_number == some (k + 0 + 1)) = f k l := by
      apply List.filter_eq_self.mpr
      intro d hd
      have := hf k l d hd
      simp [this]
    have h2 : (overLines f (k + 1) rest).filter
        (fun d => d.line_number == some (k + 0 + 1)) = [] := by
      apply List.filter_eq_nil_iff.mpr
      intro d hd
      obtain ⟨j, l', _, hdj⟩ := mem_overLines f rest (k + 1) d hd
      have := hf (k + 1 + j) l' d hdj
      simp only [this, beq_iff_eq, Option.some.injEq]
      omega
    rw [h1, h2, List.append_nil]
    norm_num
  | l :: rest, k, i + 1, line, h => by
    have hr : rest.get? i = some line := by simpa using h
    simp only [overLines, List.filter_append]
    have h1 : (f k l).filter (fun d => d.line_number == some (k + (i + 1) + 1)) = [] := by
      apply List.filter_eq_nil_iff.mpr
      intro d hd
      have := hf k l d hd
      simp only [this, beq_iff_eq, Option.some.injEq]
      omega
    have h2 := overLines_filter f hf rest (k + 1) i line hr
    have harith : k + 1 + i = k + (i + 1) := by omega
    rw [harith] at h2
    rw [h1, h2, List.nil_append]

/-!
## Line-number lemmas: every extracted Dependency carries the 1-based
index of the line that produced it
-/

/-- The namespace branch stamps the line's own 1-based number. -/
theorem csNamespacePart_ln (src : String) (i : Nat) (line : List Char) (d : Dependency)
    (h : d ∈ csNamespacePart src i line) : d.line_number = some (i + 1) := by
  unfold csNamespacePart at h
  repeat' split at h
  all_goals simp_all

/-- The `.cs` per-line extraction stamps the line's own 1-based number. -/
theorem csLineDeps_ln (src : String) (i : Nat) (line : List Char) (d : Dependency)
    (h : d ∈ csLineDeps src i line) : d.line_number = some (i + 1) := by
  simp only [csLineDeps] at h
  repeat' split at h
  all_goals first
    | exact csNamespacePart_ln src i line d h
    | (rcases List.mem_cons.mp h with h0 | h1
       · simp [h0]
       · exact csNamespacePart_ln src i line d h1)
    | simp at h

/-- The `.csproj` package branch stamps the line's own 1-based number. -/
theorem csprojPackagePart_ln (src : String) (i : Nat) (t : List Char) (d : Dependency)
    (h : d ∈ csprojPackagePart src i t) : d.line_number = some (i + 1) := by
  unfold csprojPackagePart at h
  repeat' split at h
  all_goals simp_all

/-- The `.csproj` project-reference branch stamps the line's own
1-based number. -/
theorem csprojProjectPart_ln (src : String) (i : Nat) (t : List Char) (d : Dependency)
    (h : d ∈ csprojProjectPart src i t) : d.line_number = some (i + 1) := by
  unfold csprojProjectPart at h
  repeat' split at h
  all_goals simp_all

/-- The `.csproj` framework-reference branch stamps the line's own
1-based number. -/
theorem csprojFrameworkPart_ln (src : String) (i : Nat) (t : List Char) (d : Dependency)
    (h : d ∈ csprojFrameworkPart src i t) : d.line_number = some (i + 1) := by
  unfold csprojFrameworkPart at h
  repeat' split at h
  all_goals simp_all

/-- The `.csproj` per-line extraction stamps the line's own 1-based
number. -/
theorem csprojLineDeps_ln (src : String) (i : Nat) (line : List Char) (d : Dependency)
    (h : d ∈ csprojLineDeps src i line) : d.line_number = some (i + 1) := by
  unfold csprojLineDeps at h
  rcases List.mem_append.mp h with h01 | h2
  · rcases List.mem_append.mp h01 with h0 | h1
    · exact csprojPackagePart_ln src i _ d h0
    · exact csprojProjectPart_ln src i _ d h1
  · exact csprojFrameworkPart_ln src i _ d h2

/-- The `.sln` per-line extraction stamps the line's own 1-based
number. -/
theorem slnLineDeps_ln (src : String) (i : Nat) (line : List Char) (d : Dependency)
    (h : d ∈ slnLineDeps src i line) : d.line_number = some (i + 1) := by
  simp only [slnLineDeps] at h
  repeat' split at h
  all_goals simp_all

/-- The `.sqlproj` build branch stamps the line's own 1-based number. -/
theorem sqlprojBuildPart_ln (src : String) (i : Nat) (t : List Char) (d : Dependency)
    (h : d ∈ sqlprojBuildPart src i t) : d.line_number = some (i + 1) := by
  unfold sqlprojBuildPart at h
  repeat' split at h
  all_goals simp_all

/-- The `.sqlproj` project-reference branch stamps the line's own
1-based number. -/
theorem sqlprojProjectPart_ln (src : String) (i : Nat) (t : List Char) (d : Dependency)
    (h : d ∈ sqlprojProjectPart src i t) : d.line_number = some (i + 1) := by
  unfold sqlprojProjectPart at h
  repeat' split at h
  all_goals simp_all

/-- The `.sqlproj` artifact-reference branch stamps the line's own
1-based number. -/
theorem sqlprojArtifactPart_ln (src : String) (i : Nat) (t : List Char) (d : Dependency)
    (h : d ∈ sqlprojArtifactPart src i t) : d.line_number = some (i + 1) := by
  unfold sqlprojArtifactPart at h
  repeat' split at h
  all_goals simp_all

/-- The `.sqlproj` per-line extraction stamps the line's own 1-based
number. -/
theorem sqlprojLineDeps_ln (src : String) (i : Nat) (line : List Char) (d : Dependency)
    (h : d ∈ sqlprojLineDeps src i line) : d.line_number = some (i + 1) := by
  unfold sqlprojLineDeps at h
  rcases List.mem_append.mp h with h01 | h2
  · rcases List.mem_append.mp h01 with h0 | h1
    · exact sqlprojBuildPart_ln src i _ d h0
    · exact sqlprojProjectPart_ln src i _ d h1
  · exact sqlprojArtifactPart_ln src i _ d h2

/-- The SQL table/procedure-reference branch stamps the line's own
1-based number on every record of a successful (non-panicking) run. -/
theorem sqlRefPart_ln (needle : List Char) (ty src : String) (i : Nat)
    (line upper : List Char) (ds : List Dependency) (d : Dependency)
    (hok : sqlRefPart needle ty src i line upper = some ds) (h : d ∈ ds) :
    d.line_number = some (i + 1) := by
  simp only [sqlRefPart] at hok
  repeat' split at hok
  all_goals cases hok
  all_goals simp_all

/-- The SQL `EXEC` branch stamps the line's own 1-based number on every
record of a successful run. -/
theorem sqlExecPart_ln (src : String) (i : Nat) (line upper : List Char)
    (ds : List Dependency) (d : Dependency)
    (hok : sqlExecPart src i line upper = some ds) (h : d ∈ ds) :
    d.line_number = some (i + 1) := by
  simp only [sqlExecPart] at hok
  repeat' split at hok
  all_goals cases hok
  all_goals simp_all

/-- The SQL `UPDATE` branch stamps the line's own 1-based number on
every record of a successful run. -/
theorem sqlUpdatePart_ln (src : String) (i : Nat) (line upper : List Char)
    (ds : List Dependency) (d : Dependency)
    (hok : sqlUpdatePart src i line upper = some ds) (h : d ∈ ds) :
    d.line_number = some (i + 1) := by
  unfold sqlUpdatePart at hok
  split at hok
  · exact sqlRefPart_ln _ _ src i line upper ds d hok h
  · cases hok; simp at h

/-- The `.sql` per-line extraction stamps the line's own 1-based number
on every record of a successful (non-panicking) run. -/
theorem sqlLineDeps_ln (src : String) (i : Nat) (line : List Char)
    (ds : List Dependency) (d : Dependency)
    (hok : sqlLineDeps src i line = some ds) (h : d ∈ ds) :
    d.line_number = some (i + 1) := by
  simp only [sqlLineDeps] at hok
  split at hok
  · cases hok; simp at h
  · repeat' split at hok
    all_goals cases hok
    all_goals
      simp only [List.mem_append] at h
      rcases h with ((((h | h) | h) | h) | h) | h
      · exact sqlRefPart_ln _ _ src i line _ _ d (by assumption) h
      · exact sqlRefPart_ln _ _ src i line _ _ d (by assumption) h
      · exact sqlRefPart_ln _ _ src i line _ _ d (by assumption) h
      · exact sqlUpdatePart_ln src i line _ _ d (by assumption) h
      · exact sqlRefPart_ln _ _ src i line _ _ d (by assumption) h
      · exact sqlExecPart_ln src i line _ _ d (by assumption) h

/-- Every record of the per-line dispatch carries its own 1-based line
number. -/
theorem lineContrib_ln (ext src : String) (i : Nat) (line : List Char) (d : Dependency)
    (h : d ∈ lineContrib ext src i line) : d.line_number = some (i + 1) := by
  unfold lineContrib at h
  repeat' split at h
  · exact csprojLineDeps_ln src i line d h
  · exact sqlprojLineDeps_ln src i line d h
  · exact slnLineDeps_ln src i line d h
  · cases hs : sqlLineDeps src i line with
    | none => rw [hs] at h; simp at h
    | some ds => exact sqlLineDeps_ln src i line ds d hs (by simpa [hs] using h)
  · exact csLineDeps_ln src i line d h

/-- C8: for every supported extension and any content, every Dependency
produced by `extract_dependencies` has a `line_number` that is present,
1-based (at least 1) and equal to the position of the line of the input
content that produced the record. -/
theorem c8_dependency_line_numbers (ext : String) (content : List Char) (src : String)
    (deps : List Dependency) (d : Dependency)
    (h1 : extract_dependencies ext content src = some deps) (h2 : d ∈ deps) :
    ∃ i line, (splitLines content).get? i = some line ∧
      d.line_number = some (i + 1) ∧ 1 ≤ i + 1 ∧ d ∈ lineContrib ext src i line := by
  simp only [extract_dependencies] at h1
  by_cases hc1 : (ext == "csproj") = true
  · rw [if_pos hc1] at h1
    injection h1 with h1
    subst h1
    simp only [extract_csproj_dependencies] at h2
    obtain ⟨j, l, hj, hd⟩ := mem_overLines (csprojLineDeps src) (splitLines content) 0 d h2
    rw [Nat.zero_add] at hd
    refine ⟨j, l, hj, csprojLineDeps_ln src j l d hd, by omega, ?_⟩
    simp only [lineContrib]
    rw [if_pos hc1]
    exact hd
  · rw [if_neg hc1] at h1
    by_cases hc2 : (ext == "sqlproj") = true
    · rw [if_pos hc2] at h1
      injection h1 with h1
      subst h1
      simp only [extract_sqlproj_dependencies] at h2
      obtain ⟨j, l, hj, hd⟩ := mem_overLines (sqlprojLineDeps src) (splitLines content) 0 d h2
      rw [Nat.zero_add] at hd
      refine ⟨j, l, hj, sqlprojLineDeps_ln src j l d hd, by omega, ?_⟩
      simp only [lineContrib]
      rw [if_neg hc1, if_pos hc2]
      exact hd
    · rw [if_neg hc2] at h1
      by_cases hc3 : (ext == "sln") = true
      · rw [if_pos hc3] at h1
        injection h1 with h1
        subst h1
        simp only [extract_sln_dependencies] at h2
        obtain ⟨j, l, hj, hd⟩ := mem_overLines (slnLineDeps src) (splitLines content) 0 d h2
        rw [Nat.zero_add] at hd
        refine ⟨j, l, hj, slnLineDeps_ln src j l d hd, by omega, ?_⟩
        simp only [lineContrib]
        rw [if_neg hc1, if_neg hc2, if_pos hc3]
        exact hd
      · rw [if_neg hc3] at h1
        by_cases hc4 : (ext == "sql") = true
        · rw [if_pos hc4] at h1
          simp only [extract_sql_dependencies] at h1
          obtain ⟨j, l, part, hj, hp, hd⟩ :=
            mem_overLinesOpt (sqlLineDeps src) (splitLines content) 0 deps d h1 h2
          rw [Nat.zero_add] at hp
          refine ⟨j, l, hj, sqlLineDeps_ln src j l part d hp hd, by omega, ?_⟩
          simp only [lineContrib]
          rw [if_neg hc1, if_neg hc2, if_neg hc3, if_pos hc4, hp]
          simpa using hd
        · rw [if_neg hc4] at h1
          injection h1 with h1
          subst h1
          obtain ⟨j, l, hj, hd⟩ := mem_overLines (csLineDeps src) (splitLines content) 0 d h2
          rw [Nat.zero_add] at hd
          refine ⟨j, l, hj, csLineDeps_ln src j l d hd, by omega, ?_⟩
          simp only [lineContrib]
          rw [if_neg hc1, if_neg hc2, if_neg hc3, if_neg hc4]
          exact hd

/-- Witness for C8 at a concrete input: the one Dependency extracted
from a one-line `.cs` file is located at line 1. -/
theorem c8_dependency_line_numbers_witness :
    ∃ i line, (splitLines usingGenericLine).get? i = some line ∧
      (genericDep "f.cs" 0).line_number = some (i + 1) ∧ 1 ≤ i + 1 ∧
      genericDep "f.cs" 0 ∈ lineContrib "cs" "f.cs" i line :=
  c8_dependency_line_numbers "cs" usingGenericLine "f.cs"
    (overLines (csLineDeps "f.cs") 0 (splitLines usingGenericLine))
    (genericDep "f.cs" 0) rfl (by decide)

/-- C5: in a `.cs` file whose line at 0-based index `i` is
`using System.Collections.Generic;`, that line contributes exactly one
Dependency: name "Generic", external, type "using", line number `i+1`. -/
theorem c5_using_generic (content : List Char) (src : String) (i : Nat)
    (deps : List Dependency)
    (hline : (splitLines content).get? i = some usingGenericLine)
    (hdeps : extract_dependencies "cs" content src = some deps) :
    deps.filter (fun d => d.line_number == some (i + 1)) = [genericDep src i] := by
  have hd : deps = overLines (csLineDeps src) 0 (splitLines content) := by
    have : extract_dependencies "cs" content src =
        some (overLines (csLineDeps src) 0 (splitLines content)) := rfl
    rw [this] at hdeps
    exact (Option.some.injEq _ _).mp hdeps.symm
  subst hd
  have hfilter := overLines_filter (csLineDeps src) (csLineDeps_ln src)
    (splitLines content) 0 i usingGenericLine hline
  rw [Nat.zero_add] at hfilter
  rw [hfilter]
  rfl

/-- Witness for C5: a one-line file consisting of the example line. -/
theorem c5_using_generic_witness :
    (overLines (csLineDeps "f.cs") 0 (splitLines usingGenericLine)).filter
      (fun d => d.line_number == some (0 + 1)) = [genericDep "f.cs" 0] :=
  c5_using_generic usingGenericLine "f.cs" 0
    (overLines (csLineDeps "f.cs") 0 (splitLines usingGenericLine)) (by decide) rfl

/-- C7: in a `.csproj` file whose line at 0-based index `i` is the
`<PackageReference Include="Newtonsoft.Json" Version="13.0.1" />`
example, that line contributes exactly one Dependency: name
"Newtonsoft.Json", external, type "nuget_package", version "13.0.1". -/
theorem c7_package_reference (content : List Char) (src : String) (i : Nat)
    (deps : List Dependency)
    (hline : (splitLines content).get? i = some packageRefLine)
    (hdeps : extract_dependencies "csproj" content src = some deps) :
    deps.filter (fun d => d.line_number == some (i + 1)) = [newtonsoftDep src i] := by
  have hd : deps = overLines (csprojLineDeps src) 0 (splitLines content) := by
    have : extract_dependencies "csproj" content src =
        some (overLines (csprojLineDeps src) 0 (splitLines content)) := rfl
    rw [this] at hdeps
    exact (Option.some.injEq _ _).mp hdeps.symm
  subst hd
  have hfilter := overLines_filter (csprojLineDeps src) (csprojLineDeps_ln src)
    (splitLines content) 0 i packageRefLine hline
  rw [Nat.zero_add] at hfilter
  rw [hfilter]
  rfl

/-- Witness for C7: a one-line project file consisting of the example
line. -/
theorem c7_package_reference_witness :
    (overLines (csprojLineDeps "p.csproj") 0 (splitLines packageRefLine)).filter
      (fun d => d.line_number == some (0 + 1)) = [newtonsoftDep "p.csproj" 0] :=
  c7_package_reference packageRefLine "p.csproj" 0
    (overLines (csprojLineDeps "p.csproj") 0 (splitLines packageRefLine)) (by decide) rfl

/-- C6: for the single-line content `public class Foo : Bar`,
`extract_interfaces` returns exactly one record: a public class named
Foo with no parameters and no return type. -/
theorem c6_public_class_foo :
    extract_interfaces (strL "public class Foo : Bar") = [fooClassInfo] := by decide

/-- C1: `extract_dependencies` does not always return a sequence: on a
`.sql` file containing `ŉŉŉ FROM t` the Rust code panics (modelled as
`none`), because the byte offset of `" FROM "` is found in the
uppercased line, which is longer than the original line. -/
theorem c1_sql_extraction_panics :
    extract_dependencies "sql" sqlPanicContent "f.sql" = none := by decide

/-- Counterexample to C4: the description attached to
`public class Foo` is not the nearest contiguous doc block.  Two `///`
blocks separated by a blank line are both attached ("A B" instead of
"B"), and a plain `//` comment - a comment line - stops the walk, so
the block above it is not attached at all. -/
theorem c4_counterexample :
    extract_interfaces twoBlockDocContent =
        [{ fooClassInfo with description := some "A B" }] ∧
      extract_interfaces plainCommentDocContent = [fooClassInfo] := by
  constructor
  · decide
  · decide

/-- Counterexample to C2: the integration is enabled, prior metadata
with `last_synced = 0` exists and records `a.md`, whose modification
time 5 is strictly later - yet `should_sync` returns `ok false`,
because `watch_for_changes` is disabled and then the code never
compares modification times. -/
theorem c2_counterexample :
    cfgNoWatch.enabled = true ∧
    fsStale.metadata_exists = true ∧
    fsStale.metadata_parsed = some { last_synced := 0, local_docs := [docA] } ∧
    mtimeOf fsStale docA.file_path = some 5 ∧ (0 : Int) < 5 ∧
    should_sync (some cfgNoWatch) fsStale = .ok false :=
  ⟨rfl, rfl, by decide, by decide, by decide, rfl⟩

/-- C2 (amended): `should_sync` returns `ok false` when the integration
is disabled, `ok true` when it is enabled and no metadata record
exists, `ok false` whenever metadata exists but `watch_for_changes` is
disabled, and - only when `watch_for_changes` is enabled and the
metadata parses - `ok true` exactly when some recorded source file has
a modification time strictly later than `last_synced`. -/
theorem c2_should_sync_spec (cfg : LocalDocsConfig) (fs : FsState) :
    (cfg.enabled = false → should_sync (some cfg) fs = .ok false) ∧
    (cfg.enabled = true → fs.metadata_exists = false →
      should_sync (some cfg) fs = .ok true) ∧
    (cfg.enabled = true → fs.metadata_exists = true → cfg.watch_for_changes = false →
      should_sync (some cfg) fs = .ok false) ∧
    (∀ m, cfg.enabled = true → fs.metadata_exists = true →
      fs.metadata_parsed = some m → cfg.watch_for_changes = true →
      (should_sync (some cfg) fs = .ok true ↔
        ∃ doc ∈ m.local_docs, ∃ t, mtimeOf fs doc.file_path = some t ∧
          m.last_synced < t)) := by
  refine ⟨?_, ?_, ?_, ?_⟩
  · intro hen
    simp [should_sync, hen]
  · intro hen hex
    simp [should_sync, hen, hex]
  · intro hen hex hw
    simp [should_sync, hen, hex, hw]
  · intro m hen hex hp hw
    have hpred : ∀ doc : LocalDocMetadata,
        ((match mtimeOf fs doc.file_path with
          | some modified => decide (modified > m.last_synced)
          | none => false) = true) ↔
          ∃ t, mtimeOf fs doc.file_path = some t ∧ m.last_synced < t := by
      intro doc
      cases hmt : mtimeOf fs doc.file_path with
      | none => simp
      | some t => simp [hmt, gt_iff_lt]
    simp only [should_sync, hen, hex, hp, hw, Bool.not_true, Bool.false_eq_true,
      if_false, if_true, Except.ok.injEq]
    rw [List.any_eq_true]
    constructor
    · rintro ⟨doc, hdoc, hp1⟩
      exact ⟨doc, hdoc, (hpred doc).mp hp1⟩
    · rintro ⟨doc, hdoc, ht⟩
      exact ⟨doc, hdoc, (hpred doc).mpr ht⟩

/-- Witness for C2 (amended): with watching enabled and a stale
recorded file, `should_sync` reports `ok true`. -/
theorem c2_should_sync_spec_witness :
    should_sync (some cfgWatch) fsStale = .ok true :=
  ((c2_should_sync_spec cfgWatch fsStale).2.2.2
      { last_synced := 0, local_docs := [docA] } rfl rfl rfl rfl).mpr
    ⟨docA, by decide, 5, by decide, by decide⟩

/-- Counterexample to C3: when the metadata file exists but does not
parse, `should_sync` (with watching enabled) and `load_cached_knowledge`
both return an error instead of treating the record as absent. -/
theorem c3_counterexample :
    cfgWatch.enabled = true ∧ fsCorrupt.metadata_exists = true ∧
    fsCorrupt.metadata_parsed = none ∧
    should_sync (some cfgWatch) fsCorrupt = .error "parse" ∧
    load_cached_knowledge (some cfgWatch) fsCorrupt "Rust" = .error "parse" :=
  ⟨rfl, rfl, by decide, rfl, rfl⟩

/-- C3 (amended): when the persisted metadata file exists but fails to
parse, the parse failure is propagated to the caller as an error: by
`should_sync` whenever `watch_for_changes` is enabled (otherwise it
never reads the file), and by `load_cached_knowledge` always. -/
theorem c3_parse_failure_propagates (cfg : LocalDocsConfig) (fs : FsState) (lang : String)
    (hen : cfg.enabled = true) (hex : fs.metadata_exists = true)
    (hp : fs.metadata_parsed = none) :
    (cfg.watch_for_changes = true → ∃ e, should_sync (some cfg) fs = .error e) ∧
    (∃ e, load_cached_knowledge (some cfg) fs lang = .error e) := by
  constructor
  · intro hw
    exact ⟨"parse", by simp [should_sync, hen, hex, hp, hw]⟩
  · exact ⟨"parse", by simp [load_cached_knowledge, load_local_docs_cache, hen, hex, hp]⟩

/-- Witness for C3 (amended) at the corrupt-metadata fixture. -/
theorem c3_parse_failure_propagates_witness :
    (∃ e, should_sync (some cfgWatch) fsCorrupt = .error e) ∧
    (∃ e, load_cached_knowledge (some cfgWatch) fsCorrupt "Rust" = .error e) :=
  ⟨(c3_parse_failure_propagates cfgWatch fsCorrupt "Rust" rfl rfl rfl).1 rfl,
   (c3_parse_failure_propagates cfgWatch fsCorrupt "Rust" rfl rfl rfl).2⟩

/-- The skip-on-failure loop keeps exactly the successfully processed
files, in order. -/
theorem processPaths_filterMap (proc : String → Except String LocalDocMetadata) :
    ∀ ps : List String,
      processPaths proc ps = ps.filterMap (fun p => (proc p).toOption)
  | [] => rfl
  | p :: rest => by
    cases h : proc p <;>
      simp [processPaths, h, processPaths_filterMap proc rest, Except.toOption]

/-- C9: when the cache directory and the metadata write succeed,
`sync_local_docs` returns Ok even if processing some configured files
fails, and the written KnowledgeMetadata records exactly the
successfully processed files (in configuration order). -/
theorem c9_sync_partial_failure (cfg : LocalDocsConfig) (env : SyncEnv) (now : Int)
    (h1 : env.create_dir_ok = true) (h2 : env.write_ok = true) :
    sync_local_docs cfg env now = .ok
      { last_synced := now,
        local_docs := (cfg.pdf_paths ++ cfg.markdown_paths ++ cfg.text_paths).filterMap
          (fun p => (env.proc p).toOption) } := by
  simp [sync_local_docs, h1, h2, processPaths_filterMap, List.filterMap_append]

/-- Witness for C9: of the three configured files, `b.pdf` fails, and
the sync still succeeds, recording exactly `a.pdf` and `c.md`. -/
theorem c9_sync_partial_failure_witness :
    sync_local_docs cfgSync envOneBad 7 = .ok
      { last_synced := 7,
        local_docs :=
          [{ file_path := "a.pdf", file_type := .Markdown, last_modified := "m",
             processed_content := "c" },
           { file_path := "c.md", file_type := .Markdown, last_modified := "m",
             processed_content := "c" }] } :=
  (c9_sync_partial_failure cfgSync envOneBad 7 rfl rfl).trans rfl

/-- The accumulator loop of the documentation walk equals a
takeWhile/filterMap description: take the lines upward while they are
`///`/blank/attribute lines, keep the text of the `///` ones. -/
theorem xmlDocWalk_eq : ∀ (ls : List (List Char)) (acc : List (List Char)),
    xmlDocWalk ls acc = ((ls.takeWhile docWalkKeeps).filterMap docWalkText).reverse ++ acc
  | [], acc => by simp [xmlDocWalk]
  | l :: rest, acc => by
    by_cases h1 : startsWith (strL "///") (trim l) = true
    · have hk : docWalkKeeps l = true := by simp [docWalkKeeps, h1]
      have hw : docWalkText l = docLineText (trim l) := by simp [docWalkText, h1]
      cases hdoc : docLineText (trim l) with
      | some t =>
        have hstep : xmlDocWalk (l :: rest) acc = xmlDocWalk rest (t :: acc) := by
          simp [xmlDocWalk, h1, hdoc]
        rw [hstep, xmlDocWalk_eq rest (t :: acc)]
        rw [List.takeWhile_cons_of_pos hk, List.filterMap_cons]
        rw [hw, hdoc]
        simp [List.append_assoc]
      | none =>
        have hstep : xmlDocWalk (l :: rest) acc = xmlDocWalk rest acc := by
          simp [xmlDocWalk, h1, hdoc]
        rw [hstep, xmlDocWalk_eq rest acc]
        rw [List.takeWhile_cons_of_pos hk, List.filterMap_cons]
        rw [hw, hdoc]
    · by_cases h2 : (!(trim l).isEmpty && !startsWith (strL "[") (trim l)) = true
      · have hk : docWalkKeeps l = false := by
          simp only [Bool.and_eq_true, Bool.not_eq_true'] at h2
          simp [docWalkKeeps, h1, h2.1, h2.2]
        have hstep : xmlDocWalk (l :: rest) acc = acc := by
          simp [xmlDocWalk, h1, h2]
        rw [hstep, List.takeWhile_cons_of_neg (by simp [hk])]
        simp
      · have hk : docWalkKeeps l = true := by
          simp only [Bool.and_eq_true, Bool.not_eq_true', not_and_or] at h2
          rcases h2 with h2 | h2
          · simp [docWalkKeeps, h1, by simpa using h2]
          · simp [docWalkKeeps, h1, by simpa using h2]
        have hw : docWalkText l = none := by simp [docWalkText, h1]
        have hstep : xmlDocWalk (l :: rest) acc = xmlDocWalk rest acc := by
          simp [xmlDocWalk, h1, h2]
        rw [hstep, xmlDocWalk_eq rest acc]
        rw [List.takeWhile_cons_of_pos hk, List.filterMap_cons]
        rw [hw]

/-- C4 (amended): the description attached by `extract_xml_doc` is the
text of all `///` lines in the maximal run of `///`/blank/attribute
lines directly above the declaration, in top-down order - so several
doc blocks separated only by blank or attribute lines are merged, and
the walk stops at the first line that is none of these (including plain
`//` comments). -/
theorem c4_xml_doc_description (lines : List (List Char)) (current_line : Nat) :
    extract_xml_doc lines current_line =
      (let collected :=
        ((((lines.take current_line).reverse.takeWhile docWalkKeeps).filterMap
          docWalkText)).reverse
       if collected.isEmpty then none else some (joinSpace collected)) := by
  simp only [extract_xml_doc, xmlDocWalk_eq, List.append_nil]

/-!
## Exact-match analysis of the `using` regex (for C10)
-/

/-- A star over a class consumes nothing when the first character is
outside the class. -/
theorem reMatch_starCls_cons (p : Char → Bool) (c : Char) (rest : List Char)
    (hc : p c = false) : reMatch (RE.starCls p) (c :: rest) = [([], c :: rest)] := by
  simp [reMatch, starRems, hc]

/-- A plus over a class consumes exactly one character when the second
one is outside the class. -/
theorem reMatch_plusCls_single (p : Char → Bool) (c c2 : Char) (rest : List Char)
    (hc : p c = true) (hc2 : p c2 = false) :
    reMatch (RE.plusCls p) (c :: (c2 :: rest)) = [([], c2 :: rest)] := by
  simp [reMatch, plusRems, starRems, hc, hc2]

/-- A literal matches deterministically, consuming exactly itself. -/
theorem reMatch_lit_gen : ∀ (w rest : List Char),
    reMatch (w.foldr (fun c r => RE.seq (RE.sym fun x => x == c) r) RE.eps) (w ++ rest) =
      [([], rest)]
  | [], rest => by simp [reMatch]
  | c :: w, rest => by
    simp [reMatch, reMatch_lit_gen w rest]

/-- Sequencing after a deterministic, capture-free first component. -/
theorem reMatch_seq_single (a b : RE) (s s' : List Char)
    (ha : reMatch a s = [([], s')]) :
    reMatch (RE.seq a b) s = reMatch b s' := by
  simp [reMatch, ha]

/-- Running `starRems` over a run of in-class characters followed by a
non-consumable tail produces exactly the split-point remainders. -/
theorem starRems_eq_remTails (p : Char → Bool) :
    ∀ (u t : List Char), (∀ c ∈ u, p c = true) →
      (∀ c t', t = c :: t' → p c = false) →
      starRems p (u ++ t) = remTails t u
  | [], t, _, ht => by
    cases t with
    | nil => simp [starRems, remTails]
    | cons c t' => simp [starRems, remTails, ht c t' rfl]
  | c :: u, t, hu, ht => by
    have hc : p c = true := hu c (List.mem_cons_self _ _)
    have ih := starRems_eq_remTails p u t (fun d hd => hu d (List.mem_cons_of_mem _ hd)) ht
    simp [starRems, hc, ih, remTails]

/-- Among the candidate remainders of the greedy `[^;]+`, only the one
stopping right before the final `;` survives the following `;` symbol,
whatever capture is attached to each candidate. -/
theorem remTails_flat (g : List Char → Caps) :
    ∀ (u' : List Char), (∀ c ∈ u', (c == ';') = false) →
      (remTails [';'] u').flatMap
        (fun r => (reMatch (RE.seq (RE.sym (· == ';')) RE.eps) r).map
          (fun kr2 => (g r ++ kr2.1, kr2.2))) = [(g [';'], [])]
  | [], _ => by simp [remTails, reMatch]
  | c :: u', h => by
    have hc : (c == ';') = false := h c (List.mem_cons_self _ _)
    simp only [remTails, List.flatMap_append]
    rw [remTails_flat g u' (fun d hd => h d (List.mem_cons_of_mem _ hd))]
    simp [reMatch, hc]

/-- The tail `([^;]+);` of the `using` regex, applied to a
semicolon-free nonempty string followed by `;`: exactly one match,
capturing the whole semicolon-free part as group 1. -/
theorem using_tail_match (c0 : Char) (u' : List Char)
    (hsemi : ∀ c ∈ c0 :: u', (c == ';') = false) :
    reMatch (RE.seq (RE.grp 1 (RE.plusCls notSemi)) (RE.seq (RE.sym (· == ';')) RE.eps))
      (c0 :: (u' ++ [';'])) = [([(1, c0 :: u')], [])] := by
  have hc0 : notSemi c0 = true := by
    have h := hsemi c0 (List.mem_cons_self _ _)
    simp only [notSemi, bne_iff_ne, ne_eq]
    exact beq_eq_false_iff_ne.mp h
  have hu' : ∀ c ∈ u', notSemi c = true := by
    intro c hc
    have h := hsemi c (List.mem_cons_of_mem _ hc)
    simp only [notSemi, bne_iff_ne, ne_eq]
    exact beq_eq_false_iff_ne.mp h
  have hsemis : ∀ c ∈ u', (c == ';') = false :=
    fun c hc => hsemi c (List.mem_cons_of_mem _ hc)
  have hstar : starRems notSemi (u' ++ [';']) = remTails [';'] u' := by
    refine starRems_eq_remTails notSemi u' [';'] hu' ?_
    intro c t' hct
    cases hct
    decide
  have hplus : plusRems notSemi (c0 :: (u' ++ [';'])) = remTails [';'] u' := by
    simp [plusRems, hc0, hstar]
  have hflatmap : ∀ (l : List (List Char)) (f : List Char → Caps × List Char)
      (g2 : Caps × List Char → List (Caps × List Char)),
      (l.map f).flatMap g2 = l.flatMap (fun x => g2 (f x)) := by
    intro l f g2
    induction l with
    | nil => simp
    | cons x xs ih => simp [ih]
  have hseq : reMatch
      (RE.seq (RE.grp 1 (RE.plusCls notSemi)) (RE.seq (RE.sym (· == ';')) RE.eps))
      (c0 :: (u' ++ [';'])) =
      (reMatch (RE.grp 1 (RE.plusCls notSemi)) (c0 :: (u' ++ [';']))).flatMap
        (fun kr => (reMatch (RE.seq (RE.sym (· == ';')) RE.eps) kr.2).map
          (fun kr2 => (kr.1 ++ kr2.1, kr2.2))) := rfl
  have hgrp : reMatch (RE.grp 1 (RE.plusCls notSemi)) (c0 :: (u' ++ [';'])) =
      (plusRems notSemi (c0 :: (u' ++ [';']))).map (fun r =>
        ([(1, (c0 :: (u' ++ [';'])).take ((c0 :: (u' ++ [';'])).length - r.length))], r)) := by
    show ((plusRems notSemi (c0 :: (u' ++ [';']))).map (fun r => (([] : Caps), r))).map
        (fun kr => ((1, (c0 :: (u' ++ [';'])).take
          ((c0 :: (u' ++ [';'])).length - kr.2.length)) :: kr.1, kr.2)) = _
    rw [List.map_map]
    rfl
  rw [hseq, hgrp, hplus, hflatmap]
  have hfin : (c0 :: (u' ++ [';'])).take ((c0 :: (u' ++ [';'])).length - [';'].length) =
      c0 :: u' := by
    have h2 : c0 :: (u' ++ [';']) = (c0 :: u') ++ [';'] := by simp
    have hlen : (c0 :: (u' ++ [';'])).length - [';'].length = (c0 :: u').length := by simp
    rw [hlen, h2, List.take_left]
  have hmain := remTails_flat
    (fun r => [(1, (c0 :: (u' ++ [';'])).take ((c0 :: (u' ++ [';'])).length - r.length))])
    u' hsemis
  refine Eq.trans ?_ (by rw [← hfin])
  exact hmain

/-- The whole `using` regex on a line `using <u>;` where `<u>` starts
with a non-whitespace character and contains no semicolon: group 1
captures exactly `<u>`. -/
theorem using_regex_captures (c0 : Char) (u' : List Char) (hc0 : wsp c0 = false)
    (hsemi : ∀ c ∈ c0 :: u', (c == ';') = false) :
    reCaptures using_regex (strL "using " ++ ((c0 :: u') ++ [';'])) =
      some [(1, c0 :: u')] := by
  show (reMatch using_regex
    ('u' :: 's' :: 'i' :: 'n' :: 'g' :: ' ' :: ((c0 :: u') ++ [';']))).head?.map (·.1) = _
  have e0 : using_regex = RE.seq (RE.starCls wsp) (RE.seq (lit "using")
      (RE.seq (RE.plusCls wsp) (RE.seq (RE.grp 1 (RE.plusCls notSemi))
        (RE.seq (RE.sym (· == ';')) RE.eps)))) := rfl
  rw [e0]
  rw [reMatch_seq_single _ _ _ _ (reMatch_starCls_cons wsp 'u'
    ('s' :: 'i' :: 'n' :: 'g' :: ' ' :: ((c0 :: u') ++ [';'])) (by decide))]
  have hlit : reMatch (lit "using")
      ('u' :: 's' :: 'i' :: 'n' :: 'g' :: ' ' :: ((c0 :: u') ++ [';'])) =
      [([], ' ' :: (c0 :: (u' ++ [';'])))] :=
    reMatch_lit_gen (strL "using") (' ' :: ((c0 :: u') ++ [';']))
  rw [reMatch_seq_single _ _ _ _ hlit]
  rw [reMatch_seq_single _ _ _ _
    (reMatch_plusCls_single wsp ' ' c0 (u' ++ [';']) (by decide) hc0)]
  rw [using_tail_match c0 u' hsemi]
  rfl

/-- Word characters are not semicolons. -/
theorem wrd_ne_semi {c : Char} (h : wrd c = true) : (c == ';') = false := by
  by_cases hc : c = ';'
  · subst hc
    exact absurd h (by decide)
  · exact beq_eq_false_iff_ne.mpr hc

/-- Word characters are not whitespace. -/
theorem wrd_not_wsp {c : Char} (h : wrd c = true) : wsp c = false := by
  cases hw : wsp c with
  | false => rfl
  | true =>
    exfalso
    have hcases : ((c = ' ' ∨ c = '\t') ∨ c = '\r') ∨ c = '\n' := by
      simpa [wsp, Char.isWhitespace] using hw
    rcases hcases with ((h1 | h1) | h1) | h1 <;> subst h1 <;> exact absurd h (by decide)

/-- A string that starts and ends with non-whitespace characters is
left unchanged by `trim`. -/
theorem trim_no_ws_ends (c0 : Char) (mid : List Char) (cl : Char)
    (h0 : wsp c0 = false) (hl : wsp cl = false) :
    trim (c0 :: (mid ++ [cl])) = c0 :: (mid ++ [cl]) := by
  have h1 : trimStart (c0 :: (mid ++ [cl])) = c0 :: (mid ++ [cl]) := by
    simp [trimStart, List.dropWhile_cons, h0]
  have h2 : trimEnd (c0 :: (mid ++ [cl])) = c0 :: (mid ++ [cl]) := by
    simp [trimEnd, List.reverse_cons, List.reverse_append, List.dropWhile_cons, hl]
  simp [trim, h1, h2]

/-- A pattern occurring in the middle of a string is found by
`containsSub`. -/
theorem containsSub_mid (n : List Char) : ∀ (x y : List Char),
    containsSub n (x ++ (n ++ y)) = true
  | [], y => by
    cases hn : n ++ y with
    | nil => simp_all [containsSub]
    | cons c rest =>
      have hpre : n.isPrefixOf (n ++ y) = true :=
        List.isPrefixOf_iff_prefix.mpr ⟨y, rfl⟩
      rw [hn] at hpre
      simp [containsSub, hpre]
  | c :: x, y => by
    simp [containsSub, containsSub_mid n x y]

/-- A list is a prefix of itself followed by anything. -/
theorem startsWith_self_append (p r : List Char) : startsWith p (p ++ r) = true :=
  List.isPrefixOf_iff_prefix.mpr ⟨r, rfl⟩

/-- When the captured using-path is left unchanged by `trim` and
triggers the static/alias skip condition, the whole `.cs` per-line
extraction produces nothing for the line `using <u>;`. -/
theorem csLineDeps_using_skip (src : String) (i : Nat) (c0 : Char) (u' : List Char)
    (hc0ws : wsp c0 = false)
    (hsemi : ∀ c ∈ c0 :: u', (c == ';') = false)
    (htrim : trim (c0 :: u') = c0 :: u')
    (hcond : (startsWith (strL "static ") (c0 :: u') ||
      containsSub (strL " = ") (c0 :: u')) = true) :
    csLineDeps src i (strL "using " ++ ((c0 :: u') ++ [';'])) = [] := by
  have hcap := using_regex_captures c0 u' hc0ws hsemi
  simp only [csLineDeps, hcap]
  have hget : capGet [(1, c0 :: u')] 1 = some (c0 :: u') := rfl
  simp only [hget, htrim, hcond, if_true]

/-- A `using static X;` line (word-character `X`) produces no
dependency: the `continue` skip fires. -/
theorem csLineDeps_static (src : String) (i : Nat) (X : List Char) (hne : X ≠ [])
    (hX : ∀ c ∈ X, wrd c = true) :
    csLineDeps src i (strL "using static " ++ X ++ [';']) = [] := by
  obtain ⟨X', xl, rfl⟩ := (List.eq_nil_or_concat X).resolve_left hne
  simp only [List.concat_eq_append] at hX ⊢
  have hshape : strL "using static " ++ (X' ++ [xl]) ++ [';'] =
      strL "using " ++ (('s' :: (strL "tatic " ++ (X' ++ [xl]))) ++ [';']) := rfl
  rw [hshape]
  have hts : ∀ c ∈ strL "tatic ", (c == ';') = false := by decide
  apply csLineDeps_using_skip
  · decide
  · intro c hc
    simp only [List.mem_cons, List.mem_append] at hc
    rcases hc with rfl | hc | hc
    · decide
    · exact hts c hc
    · exact wrd_ne_semi (hX c (by simpa using hc))
  · have hxl : wsp xl = false := wrd_not_wsp (hX xl (by simp))
    have ht := trim_no_ws_ends 's' (strL "tatic " ++ X') xl (by decide) hxl
    simpa [List.append_assoc] using ht
  · have h1 : startsWith (strL "static ") ('s' :: (strL "tatic " ++ (X' ++ [xl]))) = true :=
      startsWith_self_append (strL "static ") (X' ++ [xl])
    rw [h1, Bool.true_or]

/-- A `using A = B;` alias line (word-character `A`, `B`) produces no
dependency: the `continue` skip fires. -/
theorem csLineDeps_alias (src : String) (i : Nat) (A B : List Char)
    (hA : A ≠ []) (hB : B ≠ [])
    (hAw : ∀ c ∈ A, wrd c = true) (hBw : ∀ c ∈ B, wrd c = true) :
    csLineDeps src i (strL "using " ++ A ++ strL " = " ++ B ++ [';']) = [] := by
  obtain ⟨a, A', rfl⟩ := List.exists_cons_of_ne_nil hA
  have hshape : strL "using " ++ (a :: A') ++ strL " = " ++ B ++ [';'] =
      strL "using " ++ ((a :: (A' ++ (strL " = " ++ B))) ++ [';']) := by
    simp [List.append_assoc]
  rw [hshape]
  have heqs : ∀ c ∈ strL " = ", (c == ';') = false := by decide
  apply csLineDeps_using_skip
  · exact wrd_not_wsp (hAw a (List.mem_cons_self _ _))
  · intro c hc
    simp only [List.mem_cons, List.mem_append] at hc
    rcases hc with rfl | hc | hc | hc
    · exact wrd_ne_semi (hAw c (List.mem_cons_self _ _))
    · exact wrd_ne_semi (hAw c (List.mem_cons_of_mem _ hc))
    · exact heqs c hc
    · exact wrd_ne_semi (hBw c hc)
  · obtain ⟨B', bl, rfl⟩ := (List.eq_nil_or_concat B).resolve_left hB
    simp only [List.concat_eq_append] at hBw ⊢
    have hbl : wsp bl = false := wrd_not_wsp (hBw bl (by simp))
    have ha : wsp a = false := wrd_not_wsp (hAw a (List.mem_cons_self _ _))
    have ht := trim_no_ws_ends a (A' ++ (strL " = " ++ B')) bl ha hbl
    simpa [List.append_assoc] using ht
  · have h2 : containsSub (strL " = ") (a :: (A' ++ (strL " = " ++ B))) = true :=
      containsSub_mid (strL " = ") (a :: A') B
    rw [h2, Bool.or_true]

/-- C10: a `.cs` line of the form `using static X;` or `using A = B;`
(with word-character names) contributes no Dependency at all, even
though it matches the general `using` pattern. -/
theorem c10_static_and_alias_skipped (content : List Char) (src : String) (i : Nat)
    (line : List Char) (deps : List Dependency)
    (hline : (splitLines content).get? i = some line)
    (hdeps : extract_dependencies "cs" content src = some deps)
    (hform :
      (∃ X, X ≠ [] ∧ (∀ c ∈ X, wrd c = true) ∧
        line = strL "using static " ++ X ++ [';']) ∨
      (∃ A B, A ≠ [] ∧ B ≠ [] ∧ (∀ c ∈ A, wrd c = true) ∧ (∀ c ∈ B, wrd c = true) ∧
        line = strL "using " ++ A ++ strL " = " ++ B ++ [';'])) :
    deps.filter (fun d => d.line_number == some (i + 1)) = [] := by
  have hd : deps = overLines (csLineDeps src) 0 (splitLines content) := by
    have h0 : extract_dependencies "cs" content src =
        some (overLines (csLineDeps src) 0 (splitLines content)) := rfl
    rw [h0] at hdeps
    exact (Option.some.injEq _ _).mp hdeps.symm
  subst hd
  have hfilter := overLines_filter (csLineDeps src) (csLineDeps_ln src)
    (splitLines content) 0 i line hline
  rw [Nat.zero_add] at hfilter
  rw [hfilter]
  rcases hform with ⟨X, hne, hX, rfl⟩ | ⟨A, B, hA, hB, hAw, hBw, rfl⟩
  · exact csLineDeps_static src i X hne hX
  · exact csLineDeps_alias src i A B hA hB hAw hBw

/-- Witness for C10: a two-line file with one `using static` line and
one alias line; the first line contributes nothing. -/
theorem c10_static_and_alias_skipped_witness :
    (overLines (csLineDeps "f.cs") 0
      (splitLines (strL "using static X;\nusing A = B;"))).filter
      (fun d => d.line_number == some (0 + 1)) = [] :=
  c10_static_and_alias_skipped (strL "using static X;\nusing A = B;") "f.cs" 0
    (strL "using static X;")
    (overLines (csLineDeps "f.cs") 0 (splitLines (strL "using static X;\nusing A = B;")))
    (by decide) rfl
    (Or.inl ⟨['X'], by decide, by decide, by decide⟩)
